import Mathlib

/-!
Shallow embedding of `discrete-time` (lib/time_traveler.js plus the thin
index.js facade).  The `TimeTraveler` class holds a configuration and a
mutable cursor `{step, time}`; `run`/`runAsync` iterate a callback over the
series, `step_forward`/`step_backward` move the cursor, `validate`/`is_valid`
check the configuration.

Timestamps are moment.js objects.  moment.js is an external collaborator, not
part of this repository, so its contract is modelled from the spec (§6):
`parse` coerces a value into a timestamp that is either valid or
internally-flagged invalid (never throwing), `isValid` reads that flag, and
`add`/`subtract` advance a timestamp by an amount of a named calendar unit.
Amounts act additively on an abstract timeline; the length of one unit is an
arbitrary parameter `L`, so every theorem quantifies over all interpretations
of the calendar units.

Mutation is modelled explicitly: moment objects live in a small heap of
cells, and the JS fields `starts_at` and `current.time` hold references into
it, so the aliasing produced by the constructor (both fields receive the same
`starts_at_moment` object) is visible in the model.
-/

namespace DiscreteTime

/-- A JavaScript value as it can appear in a `TimeTraveler` settings object
(or stored on the instance): `undefined`, `null`, a boolean, a number
(modelled as a rational; NaN is represented by coercions returning `none`),
or a string. -/
inductive JSVal where
  | undef
  | null
  | bool (b : Bool)
  | num (q : ℚ)
  | str (s : String)
deriving DecidableEq

/-- JS truthiness test: `undefined`, `null`, `false`, `0` and `""` are falsy. -/
def JSVal.falsy : JSVal → Bool
  | .undef => true
  | .null => true
  | .bool b => !b
  | .num q => q = 0
  | .str s => s = ""

/-- Digit list to natural number, for numeric-string coercion. -/
def digitsToNat (l : List Char) : Nat :=
  l.foldl (fun a c => a * 10 + (c.toNat - 48)) 0

/-- JS `ToNumber` coercion for the value forms above; `none` stands for NaN.
Strings are handled for the simple decimal form (empty string is 0, an
all-digit string is its value, anything else is NaN). -/
def JSVal.toNumber : JSVal → Option ℚ
  | .undef => none
  | .null => some 0
  | .bool b => some (if b then 1 else 0)
  | .num q => some q
  | .str s =>
      if s.toList = [] then some 0
      else if s.toList.all Char.isDigit then some (digitsToNat s.toList : ℚ)
      else none

/-- JS `Number.isInteger`: true exactly on number values with no fractional
part (never on booleans, strings, `null` or `undefined`). -/
def JSVal.isInteger : JSVal → Bool
  | .num q => q.den = 1
  | _ => false

/-- Modelled from the spec: a moment.js timestamp (the calendar collaborator
of §6 is not part of this repository).  It carries the internal validity flag
set at parse time (§4.1: an unparsable value yields an internally-flagged
invalid timestamp) and a position on an abstract timeline that unit-based
arithmetic acts on. -/
structure Moment where
  valid : Bool
  t : ℚ
deriving DecidableEq

/-- Gregorian leap-year test, for day-of-month validity. -/
def isLeapYear (y : Nat) : Bool :=
  (y % 4 = 0 && y % 100 ≠ 0) || y % 400 = 0

/-- Number of days in month `m` of year `y`. -/
def daysInMonth (y m : Nat) : Nat :=
  if m = 2 then (if isLeapYear y then 29 else 28)
  else if m = 4 ∨ m = 6 ∨ m = 9 ∨ m = 11 then 30
  else 31

/-- Split a character list into the groups separated by dashes. -/
def splitDash : List Char → List (List Char)
  | [] => [[]]
  | c :: cs =>
      if c = '-' then [] :: splitDash cs
      else
        match splitDash cs with
        | [] => [[c]]
        | g :: gs => (c :: g) :: gs

/-- Modelled from the spec: ISO-8601 calendar-date parsing (`YYYY-MM-DD`) as
delegated to the collaborator, with internal consistency required (§4.2 rule
1: month in range, no day-of-month overflow). -/
def parseISODate (s : String) : Option (Nat × Nat × Nat) :=
  match splitDash s.toList with
  | [ys, ms, ds] =>
      if ys.length = 4 ∧ ms.length = 2 ∧ ds.length = 2 ∧
          (ys ++ ms ++ ds).all Char.isDigit then
        let y := digitsToNat ys
        let m := digitsToNat ms
        let d := digitsToNat ds
        if 1 ≤ m ∧ m ≤ 12 ∧ 1 ≤ d ∧ d ≤ daysInMonth y m then some (y, m, d)
        else none
      else none
  | _ => none

/-- Modelled from the spec: `moment(value)` coercion (§4.1, §6).  It never
throws: a valid ISO date string or a number (epoch offset) gives a valid
timestamp, while `null`, booleans and unparsable strings give an
internally-flagged invalid one.  `moment(undefined)` is the (valid) current
time, placed at position 0. -/
def momentParse : JSVal → Moment
  | .undef => ⟨true, 0⟩
  | .null => ⟨false, 0⟩
  | .bool _ => ⟨false, 0⟩
  | .num q => ⟨true, q⟩
  | .str s =>
      match parseISODate s with
      | some (y, m, d) => ⟨true, ((y * 372 + (m - 1) * 31 + (d - 1) : Nat) : ℚ)⟩
      | none => ⟨false, 0⟩

/-- Modelled from the spec: `moment#add(amount, unit)` (§6), with `L` the
abstract length of one unit.  A NaN amount (`none`) invalidates the
timestamp. -/
def momentAdd (L : JSVal → ℚ) (m : Moment) (amount : Option ℚ) (u : JSVal) : Moment :=
  match amount with
  | some q => { m with t := m.t + q * L u }
  | none => { m with valid := false }

/-- Modelled from the spec: `moment#subtract(amount, unit)` (§6). -/
def momentSubtract (L : JSVal → ℚ) (m : Moment) (amount : Option ℚ) (u : JSVal) : Moment :=
  match amount with
  | some q => { m with t := m.t - q * L u }
  | none => { m with valid := false }

/-- A reference to a moment object in the heap. -/
abbrev Ref := Nat

/-- The heap of mutable moment objects. -/
structure Heap where
  store : List Moment
deriving DecidableEq

/-- Dereference; a dangling reference reads as an invalid moment. -/
def Heap.read (h : Heap) (r : Ref) : Moment :=
  h.store.getD r ⟨false, 0⟩

/-- Mutate the object a reference points at (no-op when dangling). -/
def Heap.write (h : Heap) (r : Ref) (m : Moment) : Heap :=
  ⟨h.store.set r m⟩

/-- Allocate a fresh moment object, returning its reference. -/
def Heap.alloc (h : Heap) (m : Moment) : Heap × Ref :=
  (⟨h.store ++ [m]⟩, h.store.length)

/-- The settings object passed to the `TimeTraveler` constructor: fields
`starts_at`, `steps`, `time_units`, `time_scale` (any may hold any JS
value; an absent field reads as `undefined`). -/
structure Settings where
  starts_at : JSVal
  steps : JSVal
  time_units : JSVal
  time_scale : JSVal
deriving DecidableEq

/-- The mutable cursor `this.current = { time, step }`. -/
structure Cursor where
  time : Ref
  step : Int
deriving DecidableEq

/-- The `TimeTraveler` instance: `starts_at` holds a reference to the parsed
moment, `steps`/`time_units`/`time_scale` hold the (raw) configured values,
and `current` is the cursor. -/
structure TimeTraveler where
  starts_at : Ref
  steps : JSVal
  time_units : JSVal
  time_scale : JSVal
  current : Cursor
deriving DecidableEq

/-- The constructor `new TimeTraveler(settings)`: coerces `starts_at` into a
single freshly allocated moment object, assigns the fields (`time_scale`
defaulting to 1 when falsy, per `settings.time_scale || 1`), and initializes
`current = { time: starts_at_moment, step: 0 }` — the same object reference
as `this.starts_at`. -/
def mkTimeTraveler (s : Settings) (h : Heap) : TimeTraveler × Heap :=
  let (h1, r) := h.alloc (momentParse s.starts_at)
  ({ starts_at := r
     steps := s.steps
     time_units := s.time_units
     time_scale := if s.time_scale.falsy then .num 1 else s.time_scale
     current := { time := r, step := 0 } }, h1)

/-- `TimeTraveler#step_forward`: increments `current.step` and mutates the
moment object behind `current.time` by `add(this.time_scale, this.time_units)`. -/
def step_forward (L : JSVal → ℚ) (tr : TimeTraveler) (h : Heap) : TimeTraveler × Heap :=
  ({ tr with current := { tr.current with step := tr.current.step + 1 } },
   h.write tr.current.time
     (momentAdd L (h.read tr.current.time) tr.time_scale.toNumber tr.time_units))

/-- `TimeTraveler#step_backward`: decrements `current.step` and mutates the
moment object behind `current.time` by `subtract(this.time_scale, this.time_units)`. -/
def step_backward (L : JSVal → ℚ) (tr : TimeTraveler) (h : Heap) : TimeTraveler × Heap :=
  ({ tr with current := { tr.current with step := tr.current.step - 1 } },
   h.write tr.current.time
     (momentSubtract L (h.read tr.current.time) tr.time_scale.toNumber tr.time_units))

/-- `TimeTraveler#validate`: pushes one message per violated rule, the
`starts_at` validity check first, then the `Number.isInteger(steps)` check. -/
def validate (tr : TimeTraveler) (h : Heap) : List String :=
  (if (h.read tr.starts_at).valid then [] else ["starts_at must be a valid ISO date"]) ++
  (if tr.steps.isInteger then [] else ["steps must be an integer"])

/-- `TimeTraveler#is_valid`: true when `validate()` returned an empty array. -/
def is_valid (tr : TimeTraveler) (h : Heap) : Bool :=
  if (validate tr h).length = 0 then true else false

/-- The value `{step: ..., now: ...}` passed to the callback on one
iteration (the moment is read at call time, so this is its value then). -/
structure CbArg where
  step : Int
  now : Moment
deriving DecidableEq

/-- Number of iterations of `for(i=0; i < bound; i++)` for a JS bound
(`none` = NaN, which compares false). -/
def loopCount : Option ℚ → Nat
  | none => 0
  | some b => if b ≤ 0 then 0 else (⌈b⌉).toNat

/-- The stepping loop shared by `run` and `runAsync`: each iteration records
the callback argument `{step: current.step, now: current.time}` (pre-advance)
and then calls `step_forward`. -/
def runLoop (L : JSVal → ℚ) : Nat → TimeTraveler → Heap → List CbArg × TimeTraveler × Heap
  | 0, tr, h => ([], tr, h)
  | n + 1, tr, h =>
      let arg : CbArg := ⟨tr.current.step, h.read tr.current.time⟩
      let st1 := step_forward L tr h
      let rest := runLoop L n st1.1 st1.2
      (arg :: rest.1, rest.2)

/-- `TimeTraveler#run(callback)`: throws (`some` message) before any
iteration when `is_valid()` is false (in JS, `"..." + array` joins the array
with commas); otherwise loops `i` from 0 while `i < this.steps`, invoking the
callback and stepping forward.  Result: the thrown message (or `none`), the
list of callback arguments in invocation order, and the final state. -/
def run (L : JSVal → ℚ) (tr : TimeTraveler) (h : Heap) :
    Option String × List CbArg × TimeTraveler × Heap :=
  if is_valid tr h then
    let res := runLoop L (loopCount tr.steps.toNumber) tr h
    (none, res)
  else
    (some ("Invalid TimeTraveler: " ++ String.intercalate "," (validate tr h)), [], tr, h)

/-- `TimeTraveler#runAsync(callback)`: the promise executor calls
`reject(...)` when `is_valid()` is false but does not return, so the loop
still executes; the final `resolve()` only takes effect when the promise was
not already rejected.  Result: the settled outcome (`some` message =
rejected, `none` = fulfilled), the callback arguments, and the final state. -/
def runAsync (L : JSVal → ℚ) (tr : TimeTraveler) (h : Heap) :
    Option String × List CbArg × TimeTraveler × Heap :=
  let settled : Option String :=
    if is_valid tr h then none
    else some ("Invalid TimeTraveler: " ++ String.intercalate "," (validate tr h))
  let res := runLoop L (loopCount tr.steps.toNumber) tr h
  (settled, res)

/-- One public cursor-moving operation, for stating invariants over whole
lifecycles. -/
inductive Op where
  | forward
  | backward
  | runOp
deriving DecidableEq

/-- Apply one operation to an instance (the callback outcome of `run` is
irrelevant to the state). -/
def applyOp (L : JSVal → ℚ) (op : Op) (st : TimeTraveler × Heap) : TimeTraveler × Heap :=
  match op with
  | .forward => step_forward L st.1 st.2
  | .backward => step_backward L st.1 st.2
  | .runOp => (run L st.1 st.2).2.2

/-- Apply a sequence of operations in order. -/
def applyOps (L : JSVal → ℚ) : List Op → TimeTraveler × Heap → TimeTraveler × Heap
  | [], st => st
  | op :: ops, st => applyOps L ops (applyOp L op st)

/-- The moment reached from `m` after `n` forward steps of `amount` units
(the pre-advance time of the `n`-th callback invocation). -/
def advanceN (L : JSVal → ℚ) (amount : Option ℚ) (u : JSVal) : Nat → Moment → Moment
  | 0, m => m
  | n + 1, m => advanceN L amount u n (momentAdd L m amount u)

/-- A concrete unit-length interpretation of the calendar (one abstract tick
per unit), used to instantiate the parametric theorems on concrete inputs. -/
def unitLen1 : JSVal → ℚ := fun _ => 1

/-- The empty heap (program start: no moment objects allocated yet). -/
def emptyHeap : Heap := ⟨[]⟩

/-- A fully valid settings object (from the repository's tests). -/
def okSettings : Settings := ⟨.str "2016-10-31", .num 2, .str "days", .num 1⟩

/-- Valid settings except that `steps` is the non-integer 11.1 (spec §8),
written as the reduced fraction 111/10. -/
def fracStepsSettings : Settings :=
  ⟨.str "2016-10-31", .num ⟨111, 10, by decide, by decide⟩, .str "days", .undef⟩

/-- Valid settings except that `starts_at` is an unparsable string. -/
def badStartSettings : Settings := ⟨.str "nope", .num 1, .str "days", .num 1⟩

/-- Valid settings except that `starts_at` is the boolean `true` (spec §8,
repository test). -/
def boolStartSettings : Settings := ⟨.bool true, .num 5, .str "days", .num 1⟩

/-- Valid settings with the negative integer `steps = -1`. -/
def negStepsSettings : Settings := ⟨.str "2016-10-31", .num (-1), .str "days", .num 1⟩

/-- Valid settings with a falsy (absent) `time_scale`. -/
def defaultScaleSettings : Settings := ⟨.str "2016-10-31", .num 3, .str "days", .undef⟩

/-! ### Helper lemmas about the heap -/

theorem list_getD_set_self {α : Type} (l : List α) (n : Nat) (a d : α)
    (h : n < l.length) : (l.set n a).getD n d = a := by
  induction l generalizing n with
  | nil => simp at h
  | cons x xs ih =>
    cases n with
    | zero => simp
    | succ m => simpa using ih m (by simpa using h)

theorem list_set_getD_self {α : Type} (l : List α) (n : Nat) (d : α) :
    l.set n (l.getD n d) = l := by
  induction l generalizing n with
  | nil => simp
  | cons x xs ih =>
    cases n with
    | zero => simp
    | succ m => simpa using ih m

theorem heap_read_write_self (h : Heap) (r : Ref) (m : Moment)
    (hr : r < h.store.length) : (h.write r m).read r = m :=
  list_getD_set_self h.store r m _ hr

theorem heap_write_read_self (h : Heap) (r : Ref) :
    h.write r (h.read r) = h := by
  show Heap.mk _ = h
  rw [Heap.read, list_set_getD_self]

theorem heap_length_write (h : Heap) (r : Ref) (m : Moment) :
    (h.write r m).store.length = h.store.length := by
  simp [Heap.write]

/-! ### Helper lemmas about the stepping loop -/

theorem advanceN_succ (L : JSVal → ℚ) (a : Option ℚ) (u : JSVal) (n : Nat) (m : Moment) :
    advanceN L a u (n + 1) m = advanceN L a u n (momentAdd L m a u) := rfl

theorem runLoop_store_length (L : JSVal → ℚ) (n : Nat) (tr : TimeTraveler) (h : Heap) :
    (runLoop L n tr h).2.2.store.length = h.store.length := by
  induction n generalizing tr h with
  | zero => rfl
  | succ m ih => simp [runLoop, step_forward, ih, heap_length_write]

theorem runLoop_final_traveler (L : JSVal → ℚ) (n : Nat) (tr : TimeTraveler) (h : Heap) :
    (runLoop L n tr h).2.1 =
      { tr with current := { tr.current with step := tr.current.step + n } } := by
  induction n generalizing tr h with
  | zero => simp [runLoop]
  | succ m ih =>
    cases tr with
    | mk sa st tu ts cur =>
      cases cur with
      | mk time step =>
        simp [runLoop, step_forward, ih]
        omega

theorem runLoop_final_time (L : JSVal → ℚ) (n : Nat) (tr : TimeTraveler) (h : Heap)
    (hr : tr.current.time < h.store.length) :
    (runLoop L n tr h).2.2.read tr.current.time =
      advanceN L tr.time_scale.toNumber tr.time_units n (h.read tr.current.time) := by
  induction n generalizing tr h with
  | zero => rfl
  | succ m ih =>
    have hr1 : ((step_forward L tr h).1).current.time <
        ((step_forward L tr h).2).store.length := by
      simpa [step_forward, heap_length_write] using hr
    have := ih (step_forward L tr h).1 (step_forward L tr h).2 hr1
    simpa [runLoop, step_forward, heap_read_write_self _ _ _ hr, advanceN_succ] using this

theorem runLoop_trace (L : JSVal → ℚ) (n : Nat) (tr : TimeTraveler) (h : Heap)
    (hr : tr.current.time < h.store.length) :
    (runLoop L n tr h).1 = (List.range n).map (fun i =>
      ⟨tr.current.step + (i : ℤ),
       advanceN L tr.time_scale.toNumber tr.time_units i (h.read tr.current.time)⟩) := by
  induction n generalizing tr h with
  | zero => rfl
  | succ m ih =>
    have hr1 : ((step_forward L tr h).1).current.time <
        ((step_forward L tr h).2).store.length := by
      simpa [step_forward, heap_length_write] using hr
    have hih := ih (step_forward L tr h).1 (step_forward L tr h).2 hr1
    rw [List.range_succ_eq_map]
    show (⟨tr.current.step, h.read tr.current.time⟩ : CbArg) ::
        (runLoop L m (step_forward L tr h).1 (step_forward L tr h).2).1 = _
    rw [hih]
    simp only [List.map_cons, List.map_map, step_forward,
      heap_read_write_self _ _ _ hr]
    congr 1
    · simp [advanceN]
    · apply List.map_congr_left
      intro i _
      simp only [Function.comp, advanceN_succ, CbArg.mk.injEq, and_true]
      omega

theorem advanceN_some (L : JSVal → ℚ) (q : ℚ) (u : JSVal) (n : Nat) (m : Moment) :
    advanceN L (some q) u n m = momentAdd L m (some ((n : ℚ) * q)) u := by
  induction n generalizing m with
  | zero => simp [advanceN, momentAdd]
  | succ k ih =>
    rw [advanceN_succ, ih]
    simp only [momentAdd]
    congr 1
    push_cast
    ring

theorem loopCount_intCast (k : ℤ) : loopCount (some ((k : ℤ) : ℚ)) = k.toNat := by
  by_cases hk : (k : ℚ) ≤ 0
  · have : k ≤ 0 := by exact_mod_cast hk
    simp [loopCount, hk]
    omega
  · simp [loopCount, hk, Int.ceil_intCast]

theorem runLoop_refs (L : JSVal → ℚ) (n : Nat) (tr : TimeTraveler) (h : Heap) :
    (runLoop L n tr h).2.1.starts_at = tr.starts_at ∧
      (runLoop L n tr h).2.1.current.time = tr.current.time := by
  rw [runLoop_final_traveler]
  exact ⟨rfl, rfl⟩

theorem applyOp_refs (L : JSVal → ℚ) (op : Op) (st : TimeTraveler × Heap) :
    (applyOp L op st).1.starts_at = st.1.starts_at ∧
      (applyOp L op st).1.current.time = st.1.current.time := by
  cases op with
  | forward => exact ⟨rfl, rfl⟩
  | backward => exact ⟨rfl, rfl⟩
  | runOp =>
    have heq : applyOp L Op.runOp st = (run L st.1 st.2).2.2 := rfl
    rw [heq, run]
    by_cases hv : is_valid st.1 st.2 <;>
      simp [hv, runLoop_final_traveler]

theorem applyOps_refs (L : JSVal → ℚ) (ops : List Op) (st : TimeTraveler × Heap) :
    (applyOps L ops st).1.starts_at = st.1.starts_at ∧
      (applyOps L ops st).1.current.time = st.1.current.time := by
  induction ops generalizing st with
  | nil => exact ⟨rfl, rfl⟩
  | cons op ops ih =>
    have h1 := applyOp_refs L op st
    have h2 := ih (applyOp L op st)
    exact ⟨h2.1.trans h1.1, h2.2.trans h1.2⟩

theorem list_getD_append_length {α : Type} (l : List α) (a d : α) :
    (l ++ [a]).getD l.length d = a := by
  induction l with
  | nil => rfl
  | cons x xs ih => simp

theorem mk_read_start (s : Settings) (h : Heap) :
    (mkTimeTraveler s h).2.read (mkTimeTraveler s h).1.current.time =
      momentParse s.starts_at :=
  list_getD_append_length h.store _ _

theorem mk_time_in_range (s : Settings) (h : Heap) :
    (mkTimeTraveler s h).1.current.time < (mkTimeTraveler s h).2.store.length := by
  show h.store.length < (h.store ++ [momentParse s.starts_at]).length
  simp

theorem run_mk_parts (L : JSVal → ℚ) (s : Settings) (h : Heap) (k : ℤ)
    (hsteps : s.steps = JSVal.num (k : ℚ))
    (hval : is_valid (mkTimeTraveler s h).1 (mkTimeTraveler s h).2 = true) :
    (run L (mkTimeTraveler s h).1 (mkTimeTraveler s h).2).1 = none ∧
    (run L (mkTimeTraveler s h).1 (mkTimeTraveler s h).2).2.1 =
      (List.range k.toNat).map (fun (i : ℕ) =>
        (⟨(i : ℤ),
          advanceN L (mkTimeTraveler s h).1.time_scale.toNumber s.time_units i
            (momentParse s.starts_at)⟩ : CbArg)) ∧
    (run L (mkTimeTraveler s h).1 (mkTimeTraveler s h).2).2.2.1.current.step = (k.toNat : ℤ) ∧
    (run L (mkTimeTraveler s h).1 (mkTimeTraveler s h).2).2.2.2.read
        (mkTimeTraveler s h).1.current.time =
      advanceN L (mkTimeTraveler s h).1.time_scale.toNumber s.time_units k.toNat
        (momentParse s.starts_at) := by
  have hr := mk_time_in_range s h
  have hread := mk_read_start s h
  have hst : (mkTimeTraveler s h).1.steps = JSVal.num ((k : ℤ) : ℚ) := hsteps
  have hloop : loopCount ((mkTimeTraveler s h).1.steps).toNumber = k.toNat := by
    rw [hst]; exact loopCount_intCast k
  have h2 := runLoop_trace L k.toNat (mkTimeTraveler s h).1 (mkTimeTraveler s h).2 hr
  have h3 := runLoop_final_traveler L k.toNat (mkTimeTraveler s h).1 (mkTimeTraveler s h).2
  have h4 := runLoop_final_time L k.toNat (mkTimeTraveler s h).1 (mkTimeTraveler s h).2 hr
  have hstep0 : (mkTimeTraveler s h).1.current.step = 0 := rfl
  have hunits : (mkTimeTraveler s h).1.time_units = s.time_units := rfl
  rw [hread, hunits] at h2 h4
  simp only [hstep0, zero_add] at h2
  refine ⟨by simp [run, hval, hloop], ?_, ?_, ?_⟩
  · simp only [run, hval, if_true, hloop]
    exact h2
  · simp only [run, hval, if_true, hloop, h3, hstep0]
    simp
  · simp only [run, hval, if_true, hloop]
    exact h4

theorem heap_write_write (h : Heap) (r : Ref) (a b : Moment) :
    (h.write r a).write r b = h.write r b := by
  simp [Heap.write, List.set_set]

theorem heap_write_of_le (h : Heap) (r : Ref) (m : Moment)
    (hr : h.store.length ≤ r) : h.write r m = h := by
  cases h with
  | mk store => simp [Heap.write, List.set_eq_of_length_le hr]

/-! ### Claim theorems -/

/-- C1: for every configuration that is valid (`is_valid()` true) with
integer `steps = k ≥ 0`, `run(callback)` completes without error, invokes the
callback exactly `k` times, the step values passed form the exact sequence
`0, 1, ..., k-1` in order, each invocation receives the cursor's pre-advance
step and time (the `i`-th carries the start advanced `i` steps), and the
first invocation carries the original `starts_at` moment and step 0. -/
theorem run_invokes_exactly_steps_in_order (L : JSVal → ℚ) (s : Settings) (h : Heap)
    (k : ℤ) (hsteps : s.steps = JSVal.num (k : ℚ)) (_hk : 0 ≤ k)
    (hval : is_valid (mkTimeTraveler s h).1 (mkTimeTraveler s h).2 = true) :
    (run L (mkTimeTraveler s h).1 (mkTimeTraveler s h).2).1 = none ∧
    ((run L (mkTimeTraveler s h).1 (mkTimeTraveler s h).2).2.1).length = k.toNat ∧
    ((run L (mkTimeTraveler s h).1 (mkTimeTraveler s h).2).2.1).map CbArg.step =
      (List.range k.toNat).map (fun (i : ℕ) => (i : ℤ)) ∧
    (run L (mkTimeTraveler s h).1 (mkTimeTraveler s h).2).2.1 =
      (List.range k.toNat).map (fun (i : ℕ) =>
        (⟨(i : ℤ),
          advanceN L (mkTimeTraveler s h).1.time_scale.toNumber s.time_units i
            (momentParse s.starts_at)⟩ : CbArg)) ∧
    (0 < k →
      ((run L (mkTimeTraveler s h).1 (mkTimeTraveler s h).2).2.1).head? =
        some ⟨0, momentParse s.starts_at⟩) := by
  obtain ⟨h1, h2, h3, h4⟩ := run_mk_parts L s h k hsteps hval
  refine ⟨h1, ?_, ?_, h2, ?_⟩
  · rw [h2]; simp
  · rw [h2, List.map_map]; rfl
  · intro hpos
    rw [h2]
    have hn : k.toNat = (k.toNat - 1) + 1 := by omega
    rw [hn, List.range_succ_eq_map]
    simp [advanceN]

theorem run_invokes_exactly_steps_in_order_witness :
    (run unitLen1 (mkTimeTraveler okSettings emptyHeap).1
        (mkTimeTraveler okSettings emptyHeap).2).1 = none ∧
    ((run unitLen1 (mkTimeTraveler okSettings emptyHeap).1
        (mkTimeTraveler okSettings emptyHeap).2).2.1).length = (2 : ℤ).toNat ∧
    ((run unitLen1 (mkTimeTraveler okSettings emptyHeap).1
        (mkTimeTraveler okSettings emptyHeap).2).2.1).map CbArg.step =
      (List.range (2 : ℤ).toNat).map (fun (i : ℕ) => (i : ℤ)) ∧
    ((run unitLen1 (mkTimeTraveler okSettings emptyHeap).1
        (mkTimeTraveler okSettings emptyHeap).2).2.1).head? =
      some ⟨0, momentParse okSettings.starts_at⟩ := by
  have H := run_invokes_exactly_steps_in_order unitLen1 okSettings emptyHeap 2
    (by decide) (by decide) (by decide)
  exact ⟨H.1, H.2.1, H.2.2.1, H.2.2.2.2 (by decide)⟩

/-- C2: on an instance where `is_valid()` is false, `run(callback)` raises an
error whose message is `"Invalid TimeTraveler: "` followed by the joined
validation error strings, with zero callback invocations and the cursor
(traveler and heap) unchanged. -/
theorem run_fail_fast (L : JSVal → ℚ) (tr : TimeTraveler) (h : Heap)
    (hinv : is_valid tr h = false) :
    run L tr h =
      (some ("Invalid TimeTraveler: " ++ String.intercalate "," (validate tr h)),
       [], tr, h) := by
  simp [run, hinv]

theorem run_fail_fast_witness :
    is_valid (mkTimeTraveler boolStartSettings emptyHeap).1
        (mkTimeTraveler boolStartSettings emptyHeap).2 = false ∧
    run unitLen1 (mkTimeTraveler boolStartSettings emptyHeap).1
        (mkTimeTraveler boolStartSettings emptyHeap).2 =
      (some ("Invalid TimeTraveler: " ++ String.intercalate ","
          (validate (mkTimeTraveler boolStartSettings emptyHeap).1
            (mkTimeTraveler boolStartSettings emptyHeap).2)),
       [], (mkTimeTraveler boolStartSettings emptyHeap).1,
       (mkTimeTraveler boolStartSettings emptyHeap).2) :=
  ⟨by decide, run_fail_fast unitLen1 _ _ (by decide)⟩

/-- C5: on any instance whose `time_scale` coerces to a number (the spec
types it as a positive integer), `step_forward()` followed by
`step_backward()` returns `current.step` and the moment behind `current.time`
to their prior values — in fact it restores the whole instance and heap. -/
theorem step_forward_backward_inverse (L : JSVal → ℚ) (tr : TimeTraveler) (h : Heap)
    (q : ℚ) (hq : tr.time_scale.toNumber = some q) :
    (step_backward L (step_forward L tr h).1 (step_forward L tr h).2).1.current.step =
      tr.current.step ∧
    (step_backward L (step_forward L tr h).1 (step_forward L tr h).2).2.read
        tr.current.time = h.read tr.current.time ∧
    step_backward L (step_forward L tr h).1 (step_forward L tr h).2 = (tr, h) := by
  have hstate : step_backward L (step_forward L tr h).1 (step_forward L tr h).2 = (tr, h) := by
    have htr : (step_backward L (step_forward L tr h).1 (step_forward L tr h).2).1 = tr := by
      cases tr with
      | mk sa st tu ts cur =>
        cases cur with
        | mk time step => simp [step_forward, step_backward]
    have hh : (step_backward L (step_forward L tr h).1 (step_forward L tr h).2).2 = h := by
      have e2 : (step_forward L tr h).2 =
          h.write tr.current.time
            (momentAdd L (h.read tr.current.time) tr.time_scale.toNumber tr.time_units) := rfl
      have e1t : (step_forward L tr h).1.current.time = tr.current.time := rfl
      have e1s : (step_forward L tr h).1.time_scale = tr.time_scale := rfl
      have e1u : (step_forward L tr h).1.time_units = tr.time_units := rfl
      show ((step_forward L tr h).2.write (step_forward L tr h).1.current.time
          (momentSubtract L
            ((step_forward L tr h).2.read (step_forward L tr h).1.current.time)
            ((step_forward L tr h).1.time_scale).toNumber
            (step_forward L tr h).1.time_units)) = h
      rw [e1t, e1s, e1u, e2, hq]
      by_cases hr : tr.current.time < h.store.length
      · rw [heap_read_write_self _ _ _ hr]
        have hsub : momentSubtract L
            (momentAdd L (h.read tr.current.time) (some q) tr.time_units)
            (some q) tr.time_units = h.read tr.current.time := by
          simp [momentAdd, momentSubtract]
        rw [hsub, heap_write_write, heap_write_read_self]
      · have hge : h.store.length ≤ tr.current.time := Nat.le_of_not_lt hr
        rw [heap_write_of_le _ _ _ hge, heap_write_of_le _ _ _ hge]
    calc step_backward L (step_forward L tr h).1 (step_forward L tr h).2
        = ((step_backward L (step_forward L tr h).1 (step_forward L tr h).2).1,
           (step_backward L (step_forward L tr h).1 (step_forward L tr h).2).2) := rfl
      _ = (tr, h) := by rw [htr, hh]
  refine ⟨?_, ?_, hstate⟩
  · rw [hstate]
  · rw [hstate]

theorem step_forward_backward_inverse_witness :
    ((mkTimeTraveler okSettings emptyHeap).1.time_scale.toNumber = some 1) ∧
    (step_backward unitLen1
        (step_forward unitLen1 (mkTimeTraveler okSettings emptyHeap).1
          (mkTimeTraveler okSettings emptyHeap).2).1
        (step_forward unitLen1 (mkTimeTraveler okSettings emptyHeap).1
          (mkTimeTraveler okSettings emptyHeap).2).2) =
      ((mkTimeTraveler okSettings emptyHeap).1, (mkTimeTraveler okSettings emptyHeap).2) :=
  ⟨by decide,
   (step_forward_backward_inverse unitLen1 (mkTimeTraveler okSettings emptyHeap).1
      (mkTimeTraveler okSettings emptyHeap).2 1 (by decide)).2.2⟩

/-- C6: `validate()` returns one message per violated rule, both rules
evaluated independently and in the fixed order (`starts_at` validity first,
then the `steps` integer check); the result is empty exactly when both rules
hold, no other fields influence it, and on `steps = 11.1` with otherwise
valid fields it returns exactly `["steps must be an integer"]`. -/
theorem validate_rules (tr : TimeTraveler) (h : Heap) :
    validate tr h =
      (if (h.read tr.starts_at).valid then []
        else ["starts_at must be a valid ISO date"]) ++
      (if tr.steps.isInteger then [] else ["steps must be an integer"]) ∧
    (validate tr h = [] ↔
      ((h.read tr.starts_at).valid = true ∧ tr.steps.isInteger = true)) ∧
    (∀ u v : JSVal, ∀ c : Cursor,
      validate { tr with time_units := u, time_scale := v, current := c } h =
        validate tr h) ∧
    validate (mkTimeTraveler fracStepsSettings emptyHeap).1
        (mkTimeTraveler fracStepsSettings emptyHeap).2 = ["steps must be an integer"] := by
  refine ⟨rfl, ?_, fun u v c => rfl, by decide⟩
  by_cases h1 : (h.read tr.starts_at).valid <;>
    by_cases h2 : tr.steps.isInteger <;>
      simp [validate, h1, h2]

/-- C7: for every instance state (hence before or after any stepping),
`is_valid()` is true exactly when `validate()` returns the empty array; it is
the pure recomputation `starts_at-is-valid AND steps-is-integer` over the
current settings, not a cached flag. -/
theorem is_valid_iff_validate_empty (tr : TimeTraveler) (h : Heap) :
    (is_valid tr h = true ↔ validate tr h = []) ∧
    is_valid tr h = ((h.read tr.starts_at).valid && tr.steps.isInteger) := by
  constructor
  · by_cases hc : validate tr h = []
    · simp [is_valid, hc]
    · have hlen : (validate tr h).length ≠ 0 := by
        simpa [List.length_eq_zero] using hc
      simp [is_valid, hlen, hc]
  · by_cases h1 : (h.read tr.starts_at).valid <;>
      by_cases h2 : tr.steps.isInteger <;>
        simp [is_valid, validate, h1, h2]

/-- C3 (code refutation): on an instance that fails validation, `runAsync`
rejects with the same validation error as `run`, but — the executor does not
return after calling `reject` — it still iterates: with an unparsable
`starts_at` and `steps = 1`, `runAsync` performs one callback invocation and
one cursor step, while `run` throws with zero invocations and an unchanged
cursor. -/
theorem runAsync_rejects_but_still_steps :
    is_valid (mkTimeTraveler badStartSettings emptyHeap).1
        (mkTimeTraveler badStartSettings emptyHeap).2 = false ∧
    (run unitLen1 (mkTimeTraveler badStartSettings emptyHeap).1
        (mkTimeTraveler badStartSettings emptyHeap).2).1 =
      some "Invalid TimeTraveler: starts_at must be a valid ISO date" ∧
    (run unitLen1 (mkTimeTraveler badStartSettings emptyHeap).1
        (mkTimeTraveler badStartSettings emptyHeap).2).2.1 = [] ∧
    (run unitLen1 (mkTimeTraveler badStartSettings emptyHeap).1
        (mkTimeTraveler badStartSettings emptyHeap).2).2.2.1.current.step = 0 ∧
    (runAsync unitLen1 (mkTimeTraveler badStartSettings emptyHeap).1
        (mkTimeTraveler badStartSettings emptyHeap).2).1 =
      some "Invalid TimeTraveler: starts_at must be a valid ISO date" ∧
    ((runAsync unitLen1 (mkTimeTraveler badStartSettings emptyHeap).1
        (mkTimeTraveler badStartSettings emptyHeap).2).2.1).length = 1 ∧
    (runAsync unitLen1 (mkTimeTraveler badStartSettings emptyHeap).1
        (mkTimeTraveler badStartSettings emptyHeap).2).2.2.1.current.step = 1 := by
  decide

/-- C4 (counterexample): with the valid configuration `steps = -1`, `run`
returns normally but leaves `current.step = 0`, not `steps = -1`: the claim
fails for negative integer `steps`. -/
theorem run_negative_steps_cex :
    is_valid (mkTimeTraveler negStepsSettings emptyHeap).1
        (mkTimeTraveler negStepsSettings emptyHeap).2 = true ∧
    negStepsSettings.steps = JSVal.num ((-1 : ℤ) : ℚ) ∧
    (run unitLen1 (mkTimeTraveler negStepsSettings emptyHeap).1
        (mkTimeTraveler negStepsSettings emptyHeap).2).1 = none ∧
    (run unitLen1 (mkTimeTraveler negStepsSettings emptyHeap).1
        (mkTimeTraveler negStepsSettings emptyHeap).2).2.2.1.current.step = 0 ∧
    ¬ (run unitLen1 (mkTimeTraveler negStepsSettings emptyHeap).1
        (mkTimeTraveler negStepsSettings emptyHeap).2).2.2.1.current.step = (-1 : ℤ) := by
  decide

/-- C4 (amended): for every valid configuration with integer `steps = k ≥ 0`,
after `run` returns normally the cursor mutation persists: the instance is
left with `current.step = k` and the moment behind `current.time` equal to
the original `starts_at` advanced `k` steps of `time_scale` units — when
`time_scale` coerces to a number `q` (the spec types it as a positive
integer) that is `starts_at` advanced by `k * q` units of `time_units`. -/
theorem run_final_cursor (L : JSVal → ℚ) (s : Settings) (h : Heap)
    (k : ℤ) (hsteps : s.steps = JSVal.num (k : ℚ)) (hk : 0 ≤ k)
    (hval : is_valid (mkTimeTraveler s h).1 (mkTimeTraveler s h).2 = true) :
    (run L (mkTimeTraveler s h).1 (mkTimeTraveler s h).2).1 = none ∧
    (run L (mkTimeTraveler s h).1 (mkTimeTraveler s h).2).2.2.1.current.step = k ∧
    (run L (mkTimeTraveler s h).1 (mkTimeTraveler s h).2).2.2.2.read
        (mkTimeTraveler s h).1.current.time =
      advanceN L (mkTimeTraveler s h).1.time_scale.toNumber s.time_units k.toNat
        (momentParse s.starts_at) ∧
    (∀ q : ℚ, (mkTimeTraveler s h).1.time_scale.toNumber = some q →
      (run L (mkTimeTraveler s h).1 (mkTimeTraveler s h).2).2.2.2.read
          (mkTimeTraveler s h).1.current.time =
        momentAdd L (momentParse s.starts_at) (some ((k : ℚ) * q)) s.time_units) := by
  obtain ⟨h1, h2, h3, h4⟩ := run_mk_parts L s h k hsteps hval
  refine ⟨h1, ?_, h4, ?_⟩
  · rw [h3]; omega
  · intro q hq
    rw [h4, hq, advanceN_some]
    have hcast : ((k.toNat : ℕ) : ℚ) = (k : ℚ) := by
      have h5 : (k.toNat : ℤ) = k := Int.toNat_of_nonneg hk
      exact_mod_cast congrArg (fun z : ℤ => (z : ℚ)) h5
    rw [hcast]

theorem run_final_cursor_witness :
    (run unitLen1 (mkTimeTraveler okSettings emptyHeap).1
        (mkTimeTraveler okSettings emptyHeap).2).1 = none ∧
    (run unitLen1 (mkTimeTraveler okSettings emptyHeap).1
        (mkTimeTraveler okSettings emptyHeap).2).2.2.1.current.step = (2 : ℤ) ∧
    (run unitLen1 (mkTimeTraveler okSettings emptyHeap).1
        (mkTimeTraveler okSettings emptyHeap).2).2.2.2.read
        (mkTimeTraveler okSettings emptyHeap).1.current.time =
      momentAdd unitLen1 (momentParse okSettings.starts_at)
        (some (((2 : ℤ) : ℚ) * 1)) okSettings.time_units := by
  have H := run_final_cursor unitLen1 okSettings emptyHeap 2 (by decide) (by decide) (by decide)
  exact ⟨H.1, H.2.1, H.2.2.2 1 (by decide)⟩

/-- C8: when the configured `time_scale` is unset or otherwise falsy, the
constructed instance's `time_scale` field is the number 1, and a single
`step_forward` then advances the cursor's moment by exactly one `time_units`
unit. -/
theorem time_scale_defaults_to_one (L : JSVal → ℚ) (s : Settings) (h : Heap)
    (hfalsy : s.time_scale.falsy = true) :
    (mkTimeTraveler s h).1.time_scale = JSVal.num 1 ∧
    (step_forward L (mkTimeTraveler s h).1 (mkTimeTraveler s h).2).2.read
        (mkTimeTraveler s h).1.current.time =
      momentAdd L (momentParse s.starts_at) (some 1) s.time_units := by
  have hts : (mkTimeTraveler s h).1.time_scale = JSVal.num 1 := by
    show (if s.time_scale.falsy = true then JSVal.num 1 else s.time_scale) = JSVal.num 1
    simp [hfalsy]
  refine ⟨hts, ?_⟩
  show ((mkTimeTraveler s h).2.write (mkTimeTraveler s h).1.current.time
      (momentAdd L ((mkTimeTraveler s h).2.read (mkTimeTraveler s h).1.current.time)
        ((mkTimeTraveler s h).1.time_scale).toNumber
        (mkTimeTraveler s h).1.time_units)).read
      (mkTimeTraveler s h).1.current.time =
    momentAdd L (momentParse s.starts_at) (some 1) s.time_units
  rw [heap_read_write_self _ _ _ (mk_time_in_range s h), mk_read_start, hts]
  rfl

theorem time_scale_defaults_to_one_witness :
    (mkTimeTraveler defaultScaleSettings emptyHeap).1.time_scale = JSVal.num 1 ∧
    (step_forward unitLen1 (mkTimeTraveler defaultScaleSettings emptyHeap).1
        (mkTimeTraveler defaultScaleSettings emptyHeap).2).2.read
        (mkTimeTraveler defaultScaleSettings emptyHeap).1.current.time =
      momentAdd unitLen1 (momentParse defaultScaleSettings.starts_at)
        (some 1) defaultScaleSettings.time_units :=
  time_scale_defaults_to_one unitLen1 defaultScaleSettings emptyHeap (by decide)

/-- C9: construction is a total function of the settings (the coercion of
`starts_at` never throws) with no validation and no side effect beyond field
assignment and the single moment allocation: `current` starts at
`{step: 0, time: starts_at}` (the same reference), the parsed moment is the
stored `starts_at`, an unparsable value such as the boolean `true` parses to
an invalid-flagged timestamp, and only a later `validate()` reports an
unparsable `starts_at`. -/
theorem construction_is_lazy (s : Settings) (h : Heap) :
    (mkTimeTraveler s h).1.current.step = 0 ∧
    (mkTimeTraveler s h).1.current.time = (mkTimeTraveler s h).1.starts_at ∧
    (mkTimeTraveler s h).2.read (mkTimeTraveler s h).1.starts_at =
      momentParse s.starts_at ∧
    (mkTimeTraveler s h).1.steps = s.steps ∧
    (mkTimeTraveler s h).1.time_units = s.time_units ∧
    (mkTimeTraveler s h).2.store = h.store ++ [momentParse s.starts_at] ∧
    (momentParse (JSVal.bool true)).valid = false ∧
    ((momentParse s.starts_at).valid = false →
      "starts_at must be a valid ISO date" ∈
        validate (mkTimeTraveler s h).1 (mkTimeTraveler s h).2) := by
  refine ⟨rfl, rfl, mk_read_start s h, rfl, rfl, rfl, rfl, ?_⟩
  intro hbad
  have hread : (mkTimeTraveler s h).2.read (mkTimeTraveler s h).1.starts_at =
      momentParse s.starts_at := mk_read_start s h
  simp [validate, hread, hbad]

theorem construction_is_lazy_witness :
    (momentParse boolStartSettings.starts_at).valid = false ∧
    (mkTimeTraveler boolStartSettings emptyHeap).1.current.step = 0 ∧
    "starts_at must be a valid ISO date" ∈
      validate (mkTimeTraveler boolStartSettings emptyHeap).1
        (mkTimeTraveler boolStartSettings emptyHeap).2 :=
  ⟨by decide, (construction_is_lazy boolStartSettings emptyHeap).1,
   (construction_is_lazy boolStartSettings emptyHeap).2.2.2.2.2.2.2 (by decide)⟩

/-- C10: the constructor stores the same moment object in `starts_at` and
`current.time`, so after any sequence of stepping operations the two fields
still reference the same object and read the same timestamp value; and the
recorded start does not stay frozen: under the unit-length interpretation,
one `step_forward` on a freshly constructed instance already changes the
moment read through `starts_at` away from the constructed value. -/
theorem starts_at_aliases_cursor (L : JSVal → ℚ) (s : Settings) (h : Heap)
    (ops : List Op) :
    (applyOps L ops (mkTimeTraveler s h)).1.starts_at =
      (applyOps L ops (mkTimeTraveler s h)).1.current.time ∧
    (applyOps L ops (mkTimeTraveler s h)).2.read
        (applyOps L ops (mkTimeTraveler s h)).1.starts_at =
      (applyOps L ops (mkTimeTraveler s h)).2.read
        (applyOps L ops (mkTimeTraveler s h)).1.current.time ∧
    (applyOps unitLen1 [Op.forward] (mkTimeTraveler okSettings emptyHeap)).2.read
        (applyOps unitLen1 [Op.forward]
          (mkTimeTraveler okSettings emptyHeap)).1.starts_at ≠
      momentParse okSettings.starts_at := by
  have hrefs := applyOps_refs L ops (mkTimeTraveler s h)
  have halias : (applyOps L ops (mkTimeTraveler s h)).1.starts_at =
      (applyOps L ops (mkTimeTraveler s h)).1.current.time := by
    rw [hrefs.1, hrefs.2]
    rfl
  refine ⟨halias, by rw [halias], ?_⟩
  have hread1 : (applyOps unitLen1 [Op.forward]
      (mkTimeTraveler okSettings emptyHeap)).2.read
        (applyOps unitLen1 [Op.forward]
          (mkTimeTraveler okSettings emptyHeap)).1.starts_at =
      momentAdd unitLen1 (momentParse okSettings.starts_at) (some 1)
        okSettings.time_units := by
    show ((mkTimeTraveler okSettings emptyHeap).2.write
        (mkTimeTraveler okSettings emptyHeap).1.current.time
        (momentAdd unitLen1
          ((mkTimeTraveler okSettings emptyHeap).2.read
            (mkTimeTraveler okSettings emptyHeap).1.current.time)
          ((mkTimeTraveler okSettings emptyHeap).1.time_scale).toNumber
          (mkTimeTraveler okSettings emptyHeap).1.time_units)).read
        (mkTimeTraveler okSettings emptyHeap).1.current.time = _
    rw [heap_read_write_self _ _ _ (mk_time_in_range okSettings emptyHeap),
      mk_read_start]
    rfl
  rw [hread1]
  intro heq
  have ht := congrArg Moment.t heq
  simp [momentAdd, unitLen1] at ht

end DiscreteTime
